import Mathlib

/-!
Shallow embedding of the tiny-parse combinator engine
(`include/tiny_parse/tiny_parse.hpp` and `include/tiny_parse/built_in.hpp`).

Modelling conventions:
* an input `string_view` is a `List Char`; a suffix view of the input is a
  suffix list;
* `struct Result` becomes the structure `Result` below;
* each combinator class `X` contributes `X.parseIt` (its `parse_it` member)
  and `X.minLength` (its `min_length` member); a child parser is passed as a
  function `List Char → Result`, standing for the child's full `parse` call
  (`sv >> parser_` in the source), which result-wise equals its `parse_it`;
* the unbounded `while` loops of `Many` and `GreaterThan` are embedded with
  an explicit iteration budget (`fuel`); the value `none` means the C++ loop
  has not exited within that many iterations, so divergence of the C++ loop
  is `= none` for every budget;
* consumer callbacks and callback exceptions are modelled by an effectful
  layer: an effectful parser returns the ordered trace of consumer
  invocations (each entry the substring handed to a consumer) together with
  either a `Result` or a propagating exception payload.
-/

namespace TinyParse

/-- Model of `struct Result`: the remaining input after the parse and
whether the parse was successful. -/
structure Result where
  value : List Char
  success : Bool
deriving Repr, DecidableEq

/-! ## Primitive parsers, from `built_in.hpp` -/

namespace CharP

/-- Model of `CharP<C>::parse_it`: if the input is nonempty and its front
equals the template character, consume it; otherwise fail with the input
unchanged. -/
def parseIt (c : Char) : List Char → Result
  | [] => ⟨[], false⟩
  | x :: rest => if x = c then ⟨rest, true⟩ else ⟨x :: rest, false⟩

/-- Model of `CharP<C>::min_length`. -/
def minLength : Nat := 1

end CharP

namespace RangeP

/-- Model of `RangeP<lower, upper>::parse_it`: consume one character when it
lies in the inclusive range, otherwise fail with the input unchanged. -/
def parseIt (lower upper : Char) : List Char → Result
  | [] => ⟨[], false⟩
  | x :: rest => if lower ≤ x ∧ x ≤ upper then ⟨rest, true⟩ else ⟨x :: rest, false⟩

/-- Model of `RangeP::min_length`. -/
def minLength : Nat := 1

end RangeP

namespace AnyP

/-- Model of `AnyP::parse_it`: consume one character when the input is
nonempty, otherwise fail. -/
def parseIt : List Char → Result
  | [] => ⟨[], false⟩
  | _ :: rest => ⟨rest, true⟩

/-- Model of `AnyP::min_length`. -/
def minLength : Nat := 1

end AnyP

/-! ## Combinators, from `tiny_parse.hpp` -/

namespace Or

/-- Model of `Or::parse_it`: try the first parser; if it succeeds return its
result, otherwise return the second parser's result on the original input. -/
def parseIt (p1 p2 : List Char → Result) (sv : List Char) : Result :=
  let result := p1 sv
  if result.success then result else p2 sv

/-- Model of `Or::min_length`. -/
def minLength (m1 m2 : Nat) : Nat := Nat.min m1 m2

end Or

namespace Then

/-- Model of `Then::parse_it`: run the first parser; on failure return the
original input marked failed; otherwise run the second parser on the
first's remainder, again restoring the original input on failure. -/
def parseIt (p1 p2 : List Char → Result) (sv : List Char) : Result :=
  let result := p1 sv
  if !result.success then ⟨sv, false⟩
  else
    let result2 := p2 result.value
    if !result2.success then ⟨sv, false⟩
    else result2

/-- Model of `Then::min_length`. -/
def minLength (m1 m2 : Nat) : Nat := m1 + m2

end Then

namespace Optional

/-- Model of `Optional::parse_it`: the inner parser's remainder, always
marked successful. -/
def parseIt (p : List Char → Result) (sv : List Char) : Result :=
  ⟨(p sv).value, true⟩

/-- Model of `Optional::min_length`. -/
def minLength : Nat := 0

end Optional

namespace Many

/-- Model of the `while (result.success)` loop in `Many::parse_it`, with an
explicit iteration budget. The value `none` means the C++ loop has not
exited within `fuel` iterations; since the loop has no other exit, an
answer of `none` for every budget is divergence of the C++ loop. -/
def loop (p : List Char → Result) : Nat → Result → Option Result
  | fuel, result =>
    if result.success then
      match fuel with
      | 0 => none
      | k + 1 => loop p k (p result.value)
    else some result

/-- Model of `Many::parse_it`: run the inner parser, loop while it
succeeds, and return the final remainder marked successful. -/
def parseIt (p : List Char → Result) (fuel : Nat) (sv : List Char) : Option Result :=
  (loop p fuel (p sv)).map fun result => ⟨result.value, true⟩

/-- Model of `Many::min_length`. -/
def minLength : Nat := 0

end Many

namespace Times

/-- Model of the counted `for` loop in `Times::parse_it`: starting from
loop counter `i` and current `result`, iterate `result = result >> parser_`
while `result.success && i < times`, incrementing `i`; returns the final
`result` and counter `i`. -/
def loop (p : List Char → Result) (times : Nat) (i : Nat) (result : Result) :
    Result × Nat :=
  if result.success ∧ i < times then loop p times (i + 1) (p result.value)
  else (result, i)
termination_by times - i
decreasing_by omega

/-- Model of `Times::parse_it`: run the inner parser once, loop up to
`times` total runs while succeeding, and demand `i == times` together with
a final success; otherwise fail with the original input unchanged. -/
def parseIt (p : List Char → Result) (times : Nat) (sv : List Char) : Result :=
  let state := loop p times 1 (p sv)
  if state.2 = times ∧ state.1.success then state.1 else ⟨sv, false⟩

/-- Model of `Times::min_length`. -/
def minLength (times m : Nat) : Nat := m * times

end Times

namespace GreaterThan

/-- Model of the `while (result.success)` loop in `GreaterThan::parse_it`,
which also counts the successes in `i`; embedded with an explicit iteration
budget, where `none` means the C++ loop has not exited within `fuel`
iterations. -/
def loop (p : List Char → Result) : Nat → Nat → Result → Option (Result × Nat)
  | fuel, i, result =>
    if result.success then
      match fuel with
      | 0 => none
      | k + 1 => loop p k (i + 1) (p result.value)
    else some (result, i)

/-- Model of `GreaterThan::parse_it`: run the inner parser while it
succeeds, counting successes in `i`; succeed with the final remainder when
`min < i`, otherwise fail with the original input unchanged. -/
def parseIt (p : List Char → Result) (minv : Nat) (fuel : Nat) (sv : List Char) :
    Option Result :=
  (loop p fuel 0 (p sv)).map fun state =>
    if minv < state.2 then ⟨state.1.value, true⟩ else ⟨sv, false⟩

/-- Model of `GreaterThan::min_length`. -/
def minLength (minv m : Nat) : Nat := (minv + 1) * m

end GreaterThan

namespace LessThan

/-- Model of the counted `for` loop in `LessThan::parse_it`: starting at
`i = 2` (the source runs the parser once before the loop and wants to stop
at `max_ - 1`), iterate while `result.success && i < maxv`, rerunning the
parser and OR-ing each new success into `success`; returns the final
`result`, accumulated `success` flag and counter `i`. -/
def loop (p : List Char → Result) (maxv : Nat) (i : Nat) (result : Result)
    (success : Bool) : Result × Bool × Nat :=
  if result.success ∧ i < maxv then
    let result2 := p result.value
    loop p maxv (i + 1) result2 (success || result2.success)
  else (result, success, i)
termination_by maxv - i
decreasing_by omega

/-- Model of `LessThan::parse_it`: run the inner parser once, seed the
accumulated success flag with that first outcome, loop from `i = 2` up to
strictly below `maxv`, and return the last remainder with the OR-ed
success flag. -/
def parseIt (p : List Char → Result) (maxv : Nat) (sv : List Char) : Result :=
  let result := p sv
  let state := loop p maxv 2 result result.success
  ⟨state.1.value, state.2.1⟩

/-- Number of invocations of the inner parser performed by
`LessThan::parse_it` on `sv`: one initial run plus one per loop iteration,
recovered from the final loop counter (which starts at 2). -/
def attempts (p : List Char → Result) (maxv : Nat) (sv : List Char) : Nat :=
  let result := p sv
  (loop p maxv 2 result result.success).2.2 - 1

/-- Model of `LessThan::min_length`. -/
def minLength : Nat := 0

end LessThan

/-! ## Effectful layer: consumer callbacks and callback exceptions

A consumer (`using Consumer = std::function<void(std::string_view)>`) may
throw; this is modelled as a function into `Except Nat Unit`, with `Nat`
the exception payload. An effectful parser stands for a full `parse` call
of some parser object: it returns the ordered trace of consumer
invocations that happened during the call (each entry the substring handed
to a consumer) and either the returned `Result` or the propagating
exception. -/

/-- Model of the `Consumer` function type; a thrown exception is an
`Except.error` payload. -/
def Consumer : Type := List Char → Except Nat Unit

/-- Trace of consumer invocations together with the outcome of a call:
either a normal `Result` or a propagating exception payload. -/
abbrev EResult : Type := List (List Char) × Except Nat Result

/-- An effectful parser: the full `parse` entry point of some parser
object, including the consumer invocations it performs. -/
abbrev EParser : Type := List Char → EResult

/-- Lift of a pure `parse_it` function to an effectful parser with no
consumer anywhere: no trace, no exception. -/
def pureE (f : List Char → Result) : EParser := fun sv => ([], Except.ok (f sv))

/-- The substring handed to the consumer in `BaseParser::parse`:
`sv.substr(0, sv.size() - result.value.size())`, that is the consumed
part of `sv` in front of the remainder. -/
def consumed (f : List Char → Result) (sv : List Char) : List Char :=
  sv.take (sv.length - (f sv).value.length)

/-- Model of `BaseParser::parse`: run `parse_it` (which may itself invoke
and propagate nested consumers), and if a consumer is bound and the result
is successful, invoke it on the consumed substring — recording the
invocation in the trace — propagating an exception the consumer throws;
finally return the result. -/
def BaseParser.parse (parseIt : EParser) (consumer : Option Consumer)
    (sv : List Char) : EResult :=
  match parseIt sv with
  | (tr, Except.error e) => (tr, Except.error e)
  | (tr, Except.ok result) =>
    match consumer with
    | some c =>
      if result.success then
        let sub := sv.take (sv.length - result.value.length)
        match c sub with
        | Except.ok _ => (tr ++ [sub], Except.ok result)
        | Except.error e => (tr ++ [sub], Except.error e)
      else (tr, Except.ok result)
    | none => (tr, Except.ok result)

/-- Effectful model of `Or::parse_it`: run the first child's `parse`; a
thrown exception propagates; if the first child succeeded return its
result, otherwise run the second child on the original input. -/
def Or.parseItE (p1 p2 : EParser) (sv : List Char) : EResult :=
  match p1 sv with
  | (tr, Except.error e) => (tr, Except.error e)
  | (tr, Except.ok result) =>
    if result.success then (tr, Except.ok result)
    else
      let out := p2 sv
      (tr ++ out.1, out.2)

/-- Effectful model of `Then::parse_it`: run the first child's `parse`; a
thrown exception propagates and the second child is never attempted; on a
first failure return the original input marked failed; otherwise run the
second child on the first's remainder, again restoring the original input
on failure. -/
def Then.parseItE (p1 p2 : EParser) (sv : List Char) : EResult :=
  match p1 sv with
  | (tr, Except.error e) => (tr, Except.error e)
  | (tr, Except.ok result) =>
    if !result.success then (tr, Except.ok ⟨sv, false⟩)
    else
      match p2 result.value with
      | (tr2, Except.error e) => (tr ++ tr2, Except.error e)
      | (tr2, Except.ok result2) =>
        (tr ++ tr2, Except.ok (if !result2.success then ⟨sv, false⟩ else result2))

/-- Effectful model of the counted `for` loop in `Times::parse_it`:
as `Times.loop`, threading consumer traces and propagating a thrown
exception out of the loop. -/
def Times.loopE (p : EParser) (times : Nat) (i : Nat) (result : Result) :
    List (List Char) × Except Nat (Result × Nat) :=
  if result.success ∧ i < times then
    match p result.value with
    | (tr, Except.error e) => (tr, Except.error e)
    | (tr, Except.ok result2) =>
      let out := Times.loopE p times (i + 1) result2
      (tr ++ out.1, out.2)
  else ([], Except.ok (result, i))
termination_by times - i
decreasing_by omega

/-- Effectful model of `Times::parse_it`: run the inner child's `parse`
once (exceptions propagate), loop while succeeding below `times`, and
demand `i == times` with a final success, otherwise failing with the
original input unchanged. -/
def Times.parseItE (p : EParser) (times : Nat) (sv : List Char) : EResult :=
  match p sv with
  | (tr, Except.error e) => (tr, Except.error e)
  | (tr, Except.ok result) =>
    match Times.loopE p times 1 result with
    | (tr2, Except.error e) => (tr ++ tr2, Except.error e)
    | (tr2, Except.ok state) =>
      (tr ++ tr2,
        Except.ok (if state.2 = times ∧ state.1.success then state.1 else ⟨sv, false⟩))

/-- A consumer that never throws, used in concrete callback examples. -/
def okConsumer : Consumer := fun _ => Except.ok ()

/-! ## Specification-side predicates -/

/-- Invariant on a parse function stated in the spec's data model: the
remainder is a suffix of the input, and on failure the remainder is the
input unchanged. -/
def ResultInv (p : List Char → Result) : Prop :=
  ∀ sv, (p sv).value <:+ sv ∧ ((p sv).success = false → (p sv).value = sv)

/-- The same invariant for the fuel-bounded parse functions, asked of
every answer they return. -/
def OptResultInv (p : List Char → Option Result) : Prop :=
  ∀ sv r, p sv = some r → r.value <:+ sv ∧ (r.success = false → r.value = sv)

/-- A parse function that strictly consumes input on every success. -/
def Shrinks (p : List Char → Result) : Prop :=
  ∀ sv, (p sv).success = true → (p sv).value.length < sv.length

/-- A parse function that returns its input unchanged on failure. -/
def FailId (p : List Char → Result) : Prop :=
  ∀ sv, (p sv).success = false → (p sv).value = sv

/-- Modelled from the spec: iterate a parse function a given number of
times, each run on the previous remainder, returning the final remainder
when every run succeeds and nothing when any run fails. This is the
reference description of repeated matching used by the repetition
combinator claims, written from the spec's words for comparison with the
source-derived definitions. -/
def specIterate (p : List Char → Result) : Nat → List Char → Option (List Char)
  | 0, sv => some sv
  | n + 1, sv => if (p sv).success then specIterate p n (p sv).value else none

/-! ## Helper lemmas on the primitives -/

theorem charP_resultInv (c : Char) : ResultInv (CharP.parseIt c) := by
  intro sv
  match sv with
  | [] => simp [CharP.parseIt]
  | x :: rest =>
    by_cases h : x = c <;> simp [CharP.parseIt, h]

theorem rangeP_resultInv (lo hi : Char) : ResultInv (RangeP.parseIt lo hi) := by
  intro sv
  match sv with
  | [] => simp [RangeP.parseIt]
  | x :: rest =>
    by_cases h : lo ≤ x ∧ x ≤ hi <;> simp [RangeP.parseIt, h]

theorem anyP_resultInv : ResultInv AnyP.parseIt := by
  intro sv
  match sv with
  | [] => simp [AnyP.parseIt]
  | x :: rest => simp [AnyP.parseIt]

theorem charP_shrinks (c : Char) : Shrinks (CharP.parseIt c) := by
  intro sv
  match sv with
  | [] => simp [CharP.parseIt]
  | x :: rest => by_cases h : x = c <;> simp [CharP.parseIt, h]

theorem charP_failId (c : Char) : FailId (CharP.parseIt c) :=
  fun sv => ((charP_resultInv c) sv).2

/-! ## Helper lemmas on the loops -/

theorem manyLoop_suffix (p : List Char → Result) (hp : ∀ sv, (p sv).value <:+ sv) :
    ∀ (fuel : Nat) (r r' : Result), Many.loop p fuel r = some r' → r'.value <:+ r.value := by
  intro fuel
  induction fuel with
  | zero =>
    intro r r' h
    rw [Many.loop] at h
    split at h
    · exact absurd h (by simp)
    · cases h; exact List.suffix_refl _
  | succ k ih =>
    intro r r' h
    rw [Many.loop] at h
    split at h
    · exact (ih _ _ h).trans (hp r.value)
    · cases h; exact List.suffix_refl _

theorem manyLoop_success_false (p : List Char → Result) :
    ∀ (fuel : Nat) (r r' : Result), Many.loop p fuel r = some r' → r'.success = false := by
  intro fuel
  induction fuel with
  | zero =>
    intro r r' h
    rw [Many.loop] at h
    split at h
    · exact absurd h (by simp)
    · cases h
      rename_i hs
      simpa using hs
  | succ k ih =>
    intro r r' h
    rw [Many.loop] at h
    split at h
    · exact ih _ _ h
    · cases h
      rename_i hs
      simpa using hs

theorem timesLoop_suffix (p : List Char → Result) (hp : ∀ sv, (p sv).value <:+ sv)
    (times i : Nat) (r : Result) : (Times.loop p times i r).1.value <:+ r.value := by
  rw [Times.loop]
  split
  · exact (timesLoop_suffix p hp times (i + 1) (p r.value)).trans (hp r.value)
  · exact List.suffix_refl _
termination_by times - i
decreasing_by omega

theorem gtLoop_suffix (p : List Char → Result)
    (hp : ∀ sv, (p sv).value <:+ sv) :
    ∀ (fuel i : Nat) (r : Result) (out : Result × Nat),
      GreaterThan.loop p fuel i r = some out → out.1.value <:+ r.value := by
  intro fuel
  induction fuel with
  | zero =>
    intro i r out h
    rw [GreaterThan.loop] at h
    split at h
    · exact absurd h (by simp)
    · cases h
      exact List.suffix_refl _
  | succ k ih =>
    intro i r out h
    rw [GreaterThan.loop] at h
    split at h
    · exact (ih _ _ _ h).trans (hp r.value)
    · cases h
      exact List.suffix_refl _

theorem ltLoop_suffix (p : List Char → Result) (hp : ∀ sv, (p sv).value <:+ sv)
    (maxv i : Nat) (r : Result) (s : Bool) :
    (LessThan.loop p maxv i r s).1.value <:+ r.value := by
  rw [LessThan.loop]
  split
  · exact (ltLoop_suffix p hp maxv (i + 1) (p r.value)
      (s || (p r.value).success)).trans (hp r.value)
  · exact List.suffix_refl _
termination_by maxv - i
decreasing_by omega

theorem ltLoop_true (p : List Char → Result) (maxv i : Nat) (r : Result) :
    (LessThan.loop p maxv i r true).2.1 = true := by
  rw [LessThan.loop]
  split
  · exact ltLoop_true p maxv (i + 1) (p r.value)
  · rfl
termination_by maxv - i
decreasing_by omega

theorem ltLoop_of_fail (p : List Char → Result) (maxv i : Nat) (r : Result)
    (s : Bool) (h : r.success = false) : LessThan.loop p maxv i r s = (r, s, i) := by
  rw [LessThan.loop]
  simp [h]

/-! ## Invariant preservation, one lemma per combinator -/

theorem orP_resultInv (p1 p2 : List Char → Result)
    (h1 : ResultInv p1) (h2 : ResultInv p2) : ResultInv (Or.parseIt p1 p2) := by
  intro sv
  unfold Or.parseIt
  by_cases hs : (p1 sv).success = true
  · simp only [hs, if_true]
    exact ⟨(h1 sv).1, fun hf => absurd hf (by simp [hs])⟩
  · simp only [Bool.not_eq_true] at hs
    simp only [hs, Bool.false_eq_true, if_false]
    exact ⟨(h2 sv).1, (h2 sv).2⟩

theorem thenP_resultInv (p1 p2 : List Char → Result)
    (h1 : ResultInv p1) (h2 : ResultInv p2) : ResultInv (Then.parseIt p1 p2) := by
  intro sv
  unfold Then.parseIt
  by_cases hs1 : (p1 sv).success = true
  · by_cases hs2 : (p2 (p1 sv).value).success = true
    · simp only [hs1, hs2, Bool.not_true, Bool.false_eq_true, if_false]
      exact ⟨((h2 _).1).trans ((h1 sv).1), fun hf => absurd hf (by simp [hs2])⟩
    · simp only [Bool.not_eq_true] at hs2
      simp [hs1, hs2]
  · simp only [Bool.not_eq_true] at hs1
    simp [hs1]

theorem optionalP_resultInv (p : List Char → Result)
    (hp : ResultInv p) : ResultInv (Optional.parseIt p) := by
  intro sv
  unfold Optional.parseIt
  simpa using (hp sv).1

theorem manyP_optResultInv (p : List Char → Result) (fuel : Nat)
    (hp : ResultInv p) : OptResultInv (Many.parseIt p fuel) := by
  intro sv r h
  unfold Many.parseIt at h
  cases hm : Many.loop p fuel (p sv) with
  | none => rw [hm] at h; cases h
  | some r0 =>
    rw [hm] at h
    simp only [Option.map_some'] at h
    cases h
    refine ⟨?_, fun hf => by cases hf⟩
    exact (manyLoop_suffix p (fun s => (hp s).1) fuel _ _ hm).trans ((hp sv).1)

theorem timesP_resultInv (p : List Char → Result) (times : Nat)
    (hp : ResultInv p) : ResultInv (Times.parseIt p times) := by
  intro sv
  unfold Times.parseIt
  dsimp only
  split
  · rename_i hcond
    refine ⟨(timesLoop_suffix p (fun s => (hp s).1) times 1 (p sv)).trans ((hp sv).1),
      fun hf => ?_⟩
    rw [hf] at hcond
    exact absurd hcond.2 (by simp)
  · simp

theorem gtP_optResultInv (p : List Char → Result) (minv fuel : Nat)
    (hp : ResultInv p) : OptResultInv (GreaterThan.parseIt p minv fuel) := by
  intro sv r h
  unfold GreaterThan.parseIt at h
  cases hm : GreaterThan.loop p fuel 0 (p sv) with
  | none => rw [hm] at h; cases h
  | some st =>
    rw [hm] at h
    simp only [Option.map_some'] at h
    cases h
    by_cases hlt : minv < st.2
    · rw [if_pos hlt]
      refine ⟨?_, fun hf => by cases hf⟩
      exact (gtLoop_suffix p (fun s => (hp s).1) fuel _ _ _ hm).trans ((hp sv).1)
    · rw [if_neg hlt]
      exact ⟨List.suffix_refl _, fun _ => rfl⟩

theorem ltP_resultInv (p : List Char → Result) (maxv : Nat)
    (hp : ResultInv p) : ResultInv (LessThan.parseIt p maxv) := by
  intro sv
  unfold LessThan.parseIt
  dsimp only
  by_cases hs : (p sv).success = true
  · refine ⟨(ltLoop_suffix p (fun s => (hp s).1) maxv 2 (p sv) _).trans
      ((hp sv).1), fun hf => ?_⟩
    rw [hs] at hf
    rw [ltLoop_true p maxv 2 (p sv)] at hf
    cases hf
  · simp only [Bool.not_eq_true] at hs
    rw [hs, ltLoop_of_fail p maxv 2 (p sv) false hs]
    exact ⟨(hp sv).1, fun _ => (hp sv).2 hs⟩

/-! ## Claim theorems -/

/-- C1: for every parser variant and every input `sv`, the `Result`
returned by parsing has a remainder that is a suffix of `sv` (never
longer), and whenever `success` is false the remainder equals `sv` exactly
(no partial consumption is exposed on failure). The three primitives
satisfy the invariant outright, and every combinator preserves it when its
child parse functions satisfy it; the fuel-bounded loops satisfy it for
every answer they return. -/
theorem c1_remainder_invariants :
    (∀ c, ResultInv (CharP.parseIt c)) ∧
    (∀ lo hi, ResultInv (RangeP.parseIt lo hi)) ∧
    ResultInv AnyP.parseIt ∧
    (∀ p1 p2, ResultInv p1 → ResultInv p2 → ResultInv (Or.parseIt p1 p2)) ∧
    (∀ p1 p2, ResultInv p1 → ResultInv p2 → ResultInv (Then.parseIt p1 p2)) ∧
    (∀ p, ResultInv p → ResultInv (Optional.parseIt p)) ∧
    (∀ p fuel, ResultInv p → OptResultInv (Many.parseIt p fuel)) ∧
    (∀ p times, ResultInv p → ResultInv (Times.parseIt p times)) ∧
    (∀ p minv fuel, ResultInv p → OptResultInv (GreaterThan.parseIt p minv fuel)) ∧
    (∀ p maxv, ResultInv p → ResultInv (LessThan.parseIt p maxv)) :=
  ⟨charP_resultInv, rangeP_resultInv, anyP_resultInv,
    orP_resultInv, thenP_resultInv, optionalP_resultInv,
    fun p fuel hp => manyP_optResultInv p fuel hp,
    fun p times hp => timesP_resultInv p times hp,
    fun p minv fuel hp => gtP_optResultInv p minv fuel hp,
    fun p maxv hp => ltP_resultInv p maxv hp⟩

/-- Witness for C1: the alternative of two concrete character parsers,
evaluated on a concrete failing input, satisfies the invariant; the
child-invariant hypotheses are discharged at the character parsers. -/
theorem c1_remainder_invariants_witness :
    (Or.parseIt (CharP.parseIt 'a') (CharP.parseIt 'b') ['c']).value <:+ ['c'] ∧
    ((Or.parseIt (CharP.parseIt 'a') (CharP.parseIt 'b') ['c']).success = false →
      (Or.parseIt (CharP.parseIt 'a') (CharP.parseIt 'b') ['c']).value = ['c']) :=
  c1_remainder_invariants.2.2.2.1 (CharP.parseIt 'a') (CharP.parseIt 'b')
    (charP_resultInv 'a') (charP_resultInv 'b') ['c']

/-- C6: for all parsers and every input, the sequence succeeds iff the
first parser succeeds and the second succeeds on the first's remainder; on
success it returns the second's result; on failure of either child the
reported result is the original input marked failed; and the minimum
length is the sum of the children's. -/
theorem c6_sequence :
    (∀ (p1 p2 : List Char → Result) (sv : List Char),
      ((Then.parseIt p1 p2 sv).success = true ↔
        ((p1 sv).success = true ∧ (p2 (p1 sv).value).success = true)) ∧
      ((p1 sv).success = true → (p2 (p1 sv).value).success = true →
        Then.parseIt p1 p2 sv = p2 (p1 sv).value) ∧
      ((Then.parseIt p1 p2 sv).success = false → Then.parseIt p1 p2 sv = ⟨sv, false⟩)) ∧
    (∀ m1 m2, Then.minLength m1 m2 = m1 + m2) := by
  refine ⟨fun p1 p2 sv => ?_, fun m1 m2 => rfl⟩
  unfold Then.parseIt
  dsimp only
  by_cases h1 : (p1 sv).success = true
  · by_cases h2 : (p2 (p1 sv).value).success = true
    · simp [h1, h2]
    · simp only [Bool.not_eq_true] at h2
      simp [h1, h2]
  · simp only [Bool.not_eq_true] at h1
    simp [h1]

/-- Witness for C6: a concrete two-character sequence on a matching input
returns the second child's result; the success hypotheses are discharged
by evaluation. -/
theorem c6_sequence_witness :
    Then.parseIt (CharP.parseIt 'a') (CharP.parseIt 'b') ['a', 'b'] =
      CharP.parseIt 'b' ((CharP.parseIt 'a' ['a', 'b']).value) :=
  (c6_sequence.1 (CharP.parseIt 'a') (CharP.parseIt 'b') ['a', 'b']).2.1
    (by decide) (by decide)

/-- C7: the alternative is left-biased: if the first parser succeeds the
combinator returns exactly the first parser's result and the second is
never invoked (its callbacks do not run and the outcome does not depend on
it); if the first fails, the result is the second parser's result on the
original input, whether or not it succeeds; and the minimum length is the
minimum of the children's. -/
theorem c7_alternative :
    (∀ (p1 p2 : List Char → Result) (sv : List Char),
      ((p1 sv).success = true → Or.parseIt p1 p2 sv = p1 sv) ∧
      ((p1 sv).success = false → Or.parseIt p1 p2 sv = p2 sv)) ∧
    (∀ (p1 q q' : EParser) (sv : List Char) (tr : List (List Char)) (r : Result),
      p1 sv = (tr, Except.ok r) → r.success = true →
      Or.parseItE p1 q sv = (tr, Except.ok r) ∧
      Or.parseItE p1 q sv = Or.parseItE p1 q' sv) ∧
    (∀ m1 m2, Or.minLength m1 m2 = Nat.min m1 m2) := by
  refine ⟨fun p1 p2 sv => ⟨fun h => ?_, fun h => ?_⟩,
    fun p1 q q' sv tr r hp hr => ?_, fun m1 m2 => rfl⟩
  · simp [Or.parseIt, h]
  · simp [Or.parseIt, h]
  · constructor <;> unfold Or.parseItE <;> rw [hp] <;> simp [hr]

/-- Witness for C7: a concrete left-biased alternative whose first branch
succeeds returns the first branch's answer and ignores the second branch,
with the hypotheses discharged by evaluation. -/
theorem c7_alternative_witness :
    Or.parseItE (pureE (CharP.parseIt 'a')) (pureE (CharP.parseIt 'b')) ['a'] =
      ([], Except.ok ⟨[], true⟩) ∧
    Or.parseItE (pureE (CharP.parseIt 'a')) (pureE (CharP.parseIt 'b')) ['a'] =
      Or.parseItE (pureE (CharP.parseIt 'a')) (pureE AnyP.parseIt) ['a'] :=
  c7_alternative.2.1 (pureE (CharP.parseIt 'a')) (pureE (CharP.parseIt 'b'))
    (pureE AnyP.parseIt) ['a'] [] ⟨[], true⟩ rfl rfl

/-- C8: for every parser node with a bound callback, `parse` invokes the
callback iff the match succeeded, passing exactly the consumed part of the
input (the input minus the remainder in length); the invocation is
recorded in the call's trace, so it happens during the call, before the
`MatchResult` is returned (and when the callback does not throw, the
returned outcome is exactly the `parse_it` result). The concrete conjunct
is the spec's ordering example: in a sequence whose first child carries
the callback, the callback fires with the consumed substring and the
sequence then reports success. -/
theorem c8_callback_iff_success :
    (∀ (f : List Char → Result) (c : Consumer) (sv : List Char),
      BaseParser.parse (pureE f) (some c) sv =
        (if (f sv).success = true then [consumed f sv] else [],
         if (f sv).success = true then (c (consumed f sv)).map fun _ => f sv
         else Except.ok (f sv))) ∧
    Then.parseItE (BaseParser.parse (pureE (CharP.parseIt 'a')) (some okConsumer))
        (pureE (CharP.parseIt 'b')) ['a', 'b'] =
      ([['a']], Except.ok ⟨[], true⟩) := by
  refine ⟨fun f c sv => ?_, rfl⟩
  unfold BaseParser.parse pureE consumed
  by_cases h : (f sv).success = true
  · simp only [h, if_true]
    cases hc : c (sv.take (sv.length - (f sv).value.length)) <;>
      simp [hc, Except.map]
  · simp only [Bool.not_eq_true] at h
    simp [h]

/-- C9: a fault raised by a callback bound to a parser node propagates
synchronously out of the in-progress parse call chain, after the
callback's own invocation has been recorded (the trace contains the
consumed substring it was handed); in particular a sequence whose first
child's successful attempt raised the fault does not catch it, and its
second child is never attempted: the outcome does not depend on the
second child at all. -/
theorem c9_callback_fault_propagates :
    ∀ (f : List Char → Result) (c : Consumer) (e : Nat) (q q' : EParser)
      (sv : List Char),
      (f sv).success = true → c (consumed f sv) = Except.error e →
      Then.parseItE (BaseParser.parse (pureE f) (some c)) q sv =
        ([consumed f sv], Except.error e) ∧
      Then.parseItE (BaseParser.parse (pureE f) (some c)) q sv =
        Then.parseItE (BaseParser.parse (pureE f) (some c)) q' sv := by
  intro f c e q q' sv hs hc
  have hb : BaseParser.parse (pureE f) (some c) sv = ([consumed f sv], Except.error e) := by
    unfold consumed at hc
    unfold BaseParser.parse pureE consumed
    simp [hs, hc]
  constructor <;> unfold Then.parseItE <;> rw [hb]

/-- Witness for C9: a concrete sequence whose first child matches one
character and carries a throwing callback propagates the fault with the
callback already invoked on the consumed substring, independently of the
second child; the hypotheses are discharged by evaluation. -/
theorem c9_callback_fault_propagates_witness :
    Then.parseItE
        (BaseParser.parse (pureE (CharP.parseIt 'a')) (some fun _ => Except.error 7))
        (pureE (CharP.parseIt 'b')) ['a', 'b'] =
      ([consumed (CharP.parseIt 'a') ['a', 'b']], Except.error 7) ∧
    Then.parseItE
        (BaseParser.parse (pureE (CharP.parseIt 'a')) (some fun _ => Except.error 7))
        (pureE (CharP.parseIt 'b')) ['a', 'b'] =
      Then.parseItE
        (BaseParser.parse (pureE (CharP.parseIt 'a')) (some fun _ => Except.error 7))
        (pureE AnyP.parseIt) ['a', 'b'] :=
  c9_callback_fault_propagates (CharP.parseIt 'a') (fun _ => Except.error 7) 7
    (pureE (CharP.parseIt 'b')) (pureE AnyP.parseIt) ['a', 'b'] (by decide) rfl

/-- C10: the exact-count combinator constructed with `n = 0` can never
succeed: for every inner parser and every input it returns the original
input marked failed (or propagates an exception the inner attempt raised),
and it still performs exactly one attempt of the inner parser first — its
trace is the trace of that single inner call, so a callback bound to the
inner parser fires, as the concrete conjunct shows. -/
theorem c10_times_zero :
    (∀ (p : EParser) (sv : List Char),
      Times.parseItE p 0 sv =
        ((p sv).1, match (p sv).2 with
          | Except.error e => Except.error e
          | Except.ok _ => Except.ok ⟨sv, false⟩)) ∧
    (∀ (f : List Char → Result) (sv : List Char), Times.parseIt f 0 sv = ⟨sv, false⟩) ∧
    Times.parseItE (BaseParser.parse (pureE (CharP.parseIt 'a')) (some okConsumer))
        0 ['a'] =
      ([['a']], Except.ok ⟨['a'], false⟩) := by
  refine ⟨fun p sv => ?_, fun f sv => ?_, ?_⟩
  · unfold Times.parseItE
    cases hp : p sv with
    | mk tr o =>
      cases o with
      | error e => simp
      | ok r =>
        dsimp only
        rw [Times.loopE.eq_def]
        simp
  · unfold Times.parseIt
    rw [Times.loop]
    simp
  · simp +decide [Times.parseItE, Times.loopE, BaseParser.parse, pureE, okConsumer,
      CharP.parseIt]

/-! ## ZeroOrMore (C2) -/

theorem manyLoop_none_of_fixpoint (p : List Char → Result) (v : List Char)
    (hv : p v = ⟨v, true⟩) : ∀ fuel, Many.loop p fuel ⟨v, true⟩ = none := by
  intro fuel
  induction fuel with
  | zero => rw [Many.loop]; simp
  | succ k ih => rw [Many.loop]; simpa [hv] using ih

/-- Counterexample to C2: the zero-or-more loop has no check that the
remainder stops shrinking, so it does not terminate for every inner
parser. With the inner parser `Optional(CharP(a))`, which always succeeds
without consuming on the empty input, the loop never exits: the embedded
loop returns no answer for any iteration budget, refuting that
`ZeroOrMore(A).parse(s)` terminates for every inner parser `A`. -/
theorem c2_counterexample :
    ¬ ∃ (fuel : Nat) (r : Result),
      Many.parseIt (Optional.parseIt (CharP.parseIt 'a')) fuel [] = some r := by
  rintro ⟨fuel, r, h⟩
  unfold Many.parseIt at h
  have h0 : Optional.parseIt (CharP.parseIt 'a') [] = ⟨[], true⟩ := rfl
  rw [h0, manyLoop_none_of_fixpoint _ [] h0 fuel] at h
  cases h

theorem manyLoop_total (p : List Char → Result) (hs : Shrinks p) :
    ∀ (fuel : Nat) (r : Result), (r.success = true → r.value.length < fuel) →
      ∃ r', Many.loop p fuel r = some r' := by
  intro fuel
  induction fuel with
  | zero =>
    intro r hr
    by_cases h : r.success = true
    · exact absurd (hr h) (by omega)
    · rw [Many.loop]
      simp [h]
  | succ k ih =>
    intro r hr
    by_cases h : r.success = true
    · rw [Many.loop]
      simp only [h, if_true]
      apply ih
      intro h2
      have hlt := hs r.value h2
      have := hr h
      omega
    · rw [Many.loop]
      simp [h]

/-- C2 as amended: for every inner parser that strictly consumes input on
every success, `ZeroOrMore(inner).parse(s)` terminates — within an
iteration budget of the input length plus one — and returns the final
remainder marked successful, stopping at the first failure of the inner
parser; the source loop has no check that the remainder stops shrinking,
so the original claim's totality over all inner parsers fails (see the
counterexample). -/
theorem c2_zero_or_more_total (p : List Char → Result) (hp : Shrinks p)
    (sv : List Char) :
    ∃ v, Many.parseIt p (sv.length + 1) sv = some ⟨v, true⟩ := by
  unfold Many.parseIt
  obtain ⟨r', h⟩ := manyLoop_total p hp (sv.length + 1) (p sv)
    (fun h => by have := hp sv h; omega)
  exact ⟨r'.value, by rw [h]; rfl⟩

/-- Witness for C2 as amended: the strictly consuming character parser
makes zero-or-more total on a concrete input, with the shrinking
hypothesis discharged at that parser. -/
theorem c2_zero_or_more_total_witness :
    ∃ v, Many.parseIt (CharP.parseIt 'a') 3 ['a', 'a'] = some ⟨v, true⟩ :=
  c2_zero_or_more_total (CharP.parseIt 'a') (charP_shrinks 'a') ['a', 'a']

/-! ## AtMost (C3) -/

theorem ltLoop_of_ge (p : List Char → Result) (maxv i : Nat) (r : Result)
    (s : Bool) (h : ¬ i < maxv) : LessThan.loop p maxv i r s = (r, s, i) := by
  rw [LessThan.loop]
  simp [h]

theorem ltLoop_counter_le (p : List Char → Result) (maxv i : Nat) (r : Result)
    (s : Bool) (h : i ≤ maxv) : (LessThan.loop p maxv i r s).2.2 ≤ maxv := by
  rw [LessThan.loop]
  split
  · rename_i hc
    exact ltLoop_counter_le p maxv (i + 1) (p r.value) _ (by omega)
  · simpa using h
termination_by maxv - i
decreasing_by omega

theorem ltLoop_counter_ge (p : List Char → Result) (maxv i : Nat) (r : Result)
    (s : Bool) : i ≤ (LessThan.loop p maxv i r s).2.2 := by
  rw [LessThan.loop]
  split
  · exact le_trans (by omega) (ltLoop_counter_ge p maxv (i + 1) (p r.value) _)
  · simp
termination_by maxv - i
decreasing_by omega

theorem ltP_parse_success (p : List Char → Result) (maxv : Nat)
    (sv : List Char) : (LessThan.parseIt p maxv sv).success = (p sv).success := by
  unfold LessThan.parseIt
  dsimp only
  by_cases hs : (p sv).success = true
  · rw [hs]
    simp [ltLoop_true]
  · simp only [Bool.not_eq_true] at hs
    rw [hs, ltLoop_of_fail p maxv 2 (p sv) false hs]

/-- Counterexample to C3: with n = 1, AtMost(1, CharP(a)) on the input
consisting of one matching character performs one attempt of the inner
parser, although the claim allows at most n - 1 = 0 total attempts and
demands stopping strictly before the n-th (here the first) attempt would
start; moreover that attempt succeeds, so the whole combinator succeeds
with one repetition, outside the claim's success range of 1..n-1 (empty
for n = 1). -/
theorem c3_counterexample :
    LessThan.attempts (CharP.parseIt 'a') 1 ['a'] = 1 ∧
    ¬ (LessThan.attempts (CharP.parseIt 'a') 1 ['a'] ≤ 1 - 1) ∧
    LessThan.parseIt (CharP.parseIt 'a') 1 ['a'] = ⟨[], true⟩ := by
  refine ⟨?_, ?_, ?_⟩ <;>
    simp +decide [LessThan.attempts, LessThan.parseIt, LessThan.loop, CharP.parseIt]

/-- C3 as amended: AtMost(n, inner) always performs a first attempt of the
inner parser, even when n ≤ 1 (for n ≤ 1 it performs exactly one attempt
rather than stopping before the n-th); it fails iff that first attempt
fails — the reported success flag, the OR of all per-iteration successes,
equals the first attempt's success — and a failing first attempt that
leaves its input unchanged makes the combinator return the original input
marked failed; for n ≥ 2 it performs at most n - 1 total attempts,
stopping strictly before the n-th and stopping early at the first
failure; the returned remainder is the last position reached; and its
minimum length is 0. -/
theorem c3_at_most :
    (∀ (p : List Char → Result) (maxv : Nat) (sv : List Char),
      (LessThan.parseIt p maxv sv).success = (p sv).success) ∧
    (∀ (p : List Char → Result) (maxv : Nat) (sv : List Char),
      (p sv).success = false → (p sv).value = sv →
      LessThan.parseIt p maxv sv = ⟨sv, false⟩) ∧
    (∀ (p : List Char → Result) (maxv : Nat) (sv : List Char),
      1 ≤ LessThan.attempts p maxv sv ∧
      (2 ≤ maxv → LessThan.attempts p maxv sv ≤ maxv - 1) ∧
      (maxv ≤ 1 → LessThan.attempts p maxv sv = 1)) ∧
    LessThan.minLength = 0 := by
  refine ⟨ltP_parse_success, fun p maxv sv hs hv => ?_,
    fun p maxv sv => ⟨?_, fun h2 => ?_, fun h1 => ?_⟩, rfl⟩
  · unfold LessThan.parseIt
    dsimp only
    rw [hs, ltLoop_of_fail p maxv 2 (p sv) false hs]
    simpa using hv
  · unfold LessThan.attempts
    dsimp only
    have := ltLoop_counter_ge p maxv 2 (p sv) (p sv).success
    omega
  · unfold LessThan.attempts
    dsimp only
    have := ltLoop_counter_le p maxv 2 (p sv) (p sv).success h2
    omega
  · unfold LessThan.attempts
    dsimp only
    rw [ltLoop_of_ge p maxv 2 (p sv) (p sv).success (by omega)]
    rfl

/-- Witness for C3 as amended: AtMost(3, CharP(a)) on a non-matching input
fails with the input unchanged, with the failure hypotheses discharged by
evaluation. -/
theorem c3_at_most_witness :
    LessThan.parseIt (CharP.parseIt 'a') 3 ['b'] = ⟨['b'], false⟩ :=
  c3_at_most.2.1 (CharP.parseIt 'a') 3 ['b'] (by decide) (by decide)

/-! ## ExactCount (C4) -/

theorem timesLoop_of_fail (p : List Char → Result) (times i : Nat) (r : Result)
    (h : r.success = false) : Times.loop p times i r = (r, i) := by
  rw [Times.loop]
  simp [h]

theorem timesLoop_spec (p : List Char → Result) (times i : Nat) (r : Result)
    (hi : i ≤ times) (hr : r.success = true) :
    (∀ v, specIterate p (times - i) r.value = some v →
      Times.loop p times i r = (⟨v, true⟩, times)) ∧
    (specIterate p (times - i) r.value = none →
      (Times.loop p times i r).1.success = false) := by
  by_cases hlt : i < times
  · obtain ⟨k, hk⟩ : ∃ k, times - i = k + 1 := ⟨times - i - 1, by omega⟩
    rw [hk, specIterate]
    have hloop : Times.loop p times i r = Times.loop p times (i + 1) (p r.value) := by
      rw [Times.loop]
      simp [hr, hlt]
    by_cases hs : (p r.value).success = true
    · have hrec := timesLoop_spec p times (i + 1) (p r.value) (by omega) hs
      rw [show times - (i + 1) = k from by omega] at hrec
      simp only [hs, if_true]
      exact ⟨fun v hv => by rw [hloop]; exact hrec.1 v hv,
        fun hv => by rw [hloop]; exact hrec.2 hv⟩
    · simp only [Bool.not_eq_true] at hs
      simp only [hs, Bool.false_eq_true, if_false]
      refine ⟨fun v hv => Option.noConfusion hv, fun _ => ?_⟩
      rw [hloop, timesLoop_of_fail p times (i + 1) (p r.value) hs]
      exact hs
  · have hieq : i = times := by omega
    rw [show times - i = 0 from by omega, specIterate]
    have hloop : Times.loop p times i r = (r, i) := by
      rw [Times.loop]
      simp [hlt]
    refine ⟨fun v hv => ?_, fun hv => by cases hv⟩
    cases hv
    rw [hloop, hieq]
    cases r with
    | mk value success => simp at hr; rw [hr]
termination_by times - i
decreasing_by omega

/-- Counterexample to C4: with n = 0 all zero required attempts succeed
vacuously, so the claim's rule (if all n attempts succeed, return the
final remainder as success) would make ExactCount(0, CharP(a)) succeed
with the input unchanged; the combinator instead always fails at n = 0,
returning the input marked failed. -/
theorem c4_counterexample :
    specIterate (CharP.parseIt 'a') 0 ['a'] = some ['a'] ∧
    Times.parseIt (CharP.parseIt 'a') 0 ['a'] = ⟨['a'], false⟩ ∧
    ¬ Times.parseIt (CharP.parseIt 'a') 0 ['a'] = ⟨['a'], true⟩ := by
  refine ⟨rfl, ?_, ?_⟩ <;>
    simp +decide [Times.parseIt, Times.loop, CharP.parseIt]

/-- C4 as amended: for every n ≥ 1, ExactCount(n, inner) attempts the
inner parser up to n times in sequence, each against the previous
remainder; if all n attempts succeed it returns the final remainder as a
success, and if any attempt fails before n repetitions complete the whole
match fails with the original input returned unchanged (for n = 0 the
combinator instead always fails, see the counterexample); its minimum
length is n times the inner one, and the boundary examples hold:
ExactCount(3, CharP(a)) maps "aaaa" to remainder "a" with success and
"aa" to remainder "aa" with failure. -/
theorem c4_exact_count :
    (∀ (p : List Char → Result) (n : Nat) (sv : List Char), 1 ≤ n →
      Times.parseIt p n sv =
        (match specIterate p n sv with
          | some v => ⟨v, true⟩
          | none => ⟨sv, false⟩)) ∧
    (∀ n m, Times.minLength n m = n * m) ∧
    Times.parseIt (CharP.parseIt 'a') 3 ['a', 'a', 'a', 'a'] = ⟨['a'], true⟩ ∧
    Times.parseIt (CharP.parseIt 'a') 3 ['a', 'a'] = ⟨['a', 'a'], false⟩ := by
  refine ⟨fun p n sv hn => ?_, fun n m => Nat.mul_comm m n, ?_, ?_⟩
  · obtain ⟨k, rfl⟩ : ∃ k, n = k + 1 := ⟨n - 1, by omega⟩
    rw [specIterate]
    unfold Times.parseIt
    dsimp only
    by_cases h0 : (p sv).success = true
    · simp only [h0, if_true]
      have hspec := timesLoop_spec p (k + 1) 1 (p sv) (by omega) h0
      rw [show k + 1 - 1 = k from by omega] at hspec
      cases hit : specIterate p k (p sv).value with
      | some v =>
        rw [hspec.1 v hit]
        simp
      | none =>
        have hfail := hspec.2 hit
        rcases hloop : Times.loop p (k + 1) 1 (p sv) with ⟨st, j⟩
        rw [hloop] at hfail
        simp only at hfail
        simp [hfail]
    · simp only [Bool.not_eq_true] at h0
      rw [timesLoop_of_fail p (k + 1) 1 (p sv) h0]
      simp [h0]
  · simp +decide [Times.parseIt, Times.loop, CharP.parseIt]
  · simp +decide [Times.parseIt, Times.loop, CharP.parseIt]

/-- Witness for C4 as amended: ExactCount(3, CharP(a)) on "aaa" follows
the reference n-fold iteration, with the hypothesis n ≥ 1 discharged by
evaluation. -/
theorem c4_exact_count_witness :
    Times.parseIt (CharP.parseIt 'a') 3 ['a', 'a', 'a'] =
      (match specIterate (CharP.parseIt 'a') 3 ['a', 'a', 'a'] with
        | some v => (⟨v, true⟩ : Result)
        | none => ⟨['a', 'a', 'a'], false⟩) :=
  c4_exact_count.1 (CharP.parseIt 'a') 3 ['a', 'a', 'a'] (by decide)

/-! ## AtLeast (C5) -/

theorem gtLoop_spec (p : List Char → Result) (hsk : Shrinks p) :
    ∀ (fuel : Nat) (s : List Char) (i : Nat), s.length < fuel →
      ∃ k v, specIterate p k s = some v ∧ (p v).success = false ∧
        GreaterThan.loop p fuel i (p s) = some (p v, i + k) ∧
        (k = 0 ↔ (p s).success = false) := by
  intro fuel
  induction fuel with
  | zero => intro s i h; omega
  | succ f ih =>
    intro s i h
    by_cases hs : (p s).success = true
    · have hlen : (p s).value.length < f := by
        have := hsk s hs
        omega
      obtain ⟨k, v, h1, h2, h3, _⟩ := ih (p s).value (i + 1) hlen
      refine ⟨k + 1, v, ?_, h2, ?_, by simp [hs]⟩
      · rw [specIterate]
        simp [hs, h1]
      · rw [GreaterThan.loop]
        simp only [hs, if_true]
        rw [show i + (k + 1) = (i + 1) + k from by omega]
        exact h3
    · simp only [Bool.not_eq_true] at hs
      refine ⟨0, s, rfl, hs, ?_, by simp [hs]⟩
      rw [GreaterThan.loop]
      simp [hs]

/-- C5: AtLeast(n, inner) repeatedly attempts the inner parser, counting
successes, until a failure. For an inner parser that strictly consumes on
success (so the repetition reaches its first failure) and that leaves its
input unchanged on failure, the combinator — run with an iteration budget
of the input length plus one, which the loop never exhausts — returns an
answer characterised by the number k of successful repetitions: it
succeeds with the remainder v at the point of first failure iff k is
strictly greater than n, and otherwise fails with the original input
unchanged; k is positive iff the first attempt succeeds, so n = 0 is
one-or-more; the minimum length is (n+1) times the inner one, and the
boundary examples of AtLeast(2, CharP(a)) hold. -/
theorem c5_at_least :
    (∀ (p : List Char → Result) (minv : Nat) (sv : List Char),
      Shrinks p → FailId p →
      ∃ k v, specIterate p k sv = some v ∧ (p v).success = false ∧
        (0 < k ↔ (p sv).success = true) ∧
        GreaterThan.parseIt p minv (sv.length + 1) sv =
          some (if minv < k then ⟨v, true⟩ else ⟨sv, false⟩)) ∧
    (∀ minv m, GreaterThan.minLength minv m = (minv + 1) * m) ∧
    GreaterThan.parseIt (CharP.parseIt 'a') 2 6 ['a', 'a', 'a', 'a', 'b'] =
      some ⟨['b'], true⟩ ∧
    GreaterThan.parseIt (CharP.parseIt 'a') 2 4 ['a', 'a', 'a'] = some ⟨[], true⟩ ∧
    GreaterThan.parseIt (CharP.parseIt 'a') 2 3 ['a', 'a'] =
      some ⟨['a', 'a'], false⟩ := by
  refine ⟨fun p minv sv hsk hfi => ?_, fun minv m => rfl, by decide, by decide, by decide⟩
  obtain ⟨k, v, h1, h2, h3, h4⟩ :=
    gtLoop_spec p hsk (sv.length + 1) sv 0 (by omega)
  refine ⟨k, v, h1, h2, ?_, ?_⟩
  · constructor
    · intro hk
      by_contra hb
      simp only [Bool.not_eq_true] at hb
      exact absurd (h4.2 hb) (by omega)
    · intro hk
      rcases Nat.eq_zero_or_pos k with h0 | h0
      · rw [h4.1 h0] at hk
        cases hk
      · exact h0
  · unfold GreaterThan.parseIt
    rw [show (0 : Nat) + k = k from by omega] at h3
    rw [h3]
    simp only [Option.map_some']
    rw [hfi v h2]

/-- Witness for C5: AtLeast(2, CharP(a)) on "aa" is characterised by its
success count, with the shrinking and failure-identity hypotheses
discharged at the character parser. -/
theorem c5_at_least_witness :
    ∃ k v, specIterate (CharP.parseIt 'a') k ['a', 'a'] = some v ∧
      (CharP.parseIt 'a' v).success = false ∧
      (0 < k ↔ (CharP.parseIt 'a' ['a', 'a']).success = true) ∧
      GreaterThan.parseIt (CharP.parseIt 'a') 2 3 ['a', 'a'] =
        some (if 2 < k then ⟨v, true⟩ else ⟨['a', 'a'], false⟩) :=
  c5_at_least.1 (CharP.parseIt 'a') 2 ['a', 'a'] (charP_shrinks 'a') (charP_failId 'a')

end TinyParse
